import Mathlib

set_option linter.unusedVariables false
set_option maxRecDepth 4000

/-!
Shallow embedding of `perfmetrics/scripts/fio/fio_metrics.py`.

Python dictionaries are modelled as insertion-ordered association lists,
Python numbers (int and float) as exact rationals, and fallible code as
`Except PyErr`.  `//` is integer floor division and `round` is Python's
round-half-to-even.
-/

instance [DecidableEq ε] [DecidableEq α] : DecidableEq (Except ε α) := fun a b =>
  match a, b with
  | .error e, .error f =>
    if h : e = f then isTrue (congrArg Except.error h)
    else isFalse (fun hc => h (Except.error.inj hc))
  | .ok x, .ok y =>
    if h : x = y then isTrue (congrArg Except.ok h)
    else isFalse (fun hc => h (Except.ok.inj hc))
  | .error _, .ok _ => isFalse Except.noConfusion
  | .ok _, .error _ => isFalse Except.noConfusion

/-- Python exception classes the module can raise. -/
inductive PyErr where
  | keyError (key : String)
  | indexError
  | typeError
  | valueError (msg : String)
  | noValuesError (msg : String)
deriving DecidableEq, Repr

/-- A formatted job-parameter value: `format_param` returns the raw string
for `rw` and a number for `filesize_kb` / `num_threads`. -/
inductive PValue where
  | str (s : String)
  | num (q : ℚ)
deriving DecidableEq, Repr

/-- A JSON value inside a job's `read`/`write` result block. -/
inductive RVal where
  | num (q : ℚ)
  | obj (fields : List (String × RVal))

/-- One entry of the `jobs` array of the FIO output document.
`jobOpts` is the optional `"job options"` block (string-valued, like the
options blocks FIO emits); `blocks` holds the remaining keys of the job
object, in particular the `"read"` / `"write"` result blocks. -/
structure FioJob where
  jobOpts : Option (List (String × String))
  blocks : List (String × RVal)

/-- The FIO output document: optional `"global options"` block, the
document-level `"timestamp_ms"`, and the `"jobs"` array. -/
structure FioDoc where
  globalOpts : Option (List (String × String))
  timestampMs : ℚ
  jobs : List FioJob

/-- `mapE f l` runs `f` left to right and stops at the first error: the
shape of every Python `for` loop in the module that builds a list/dict. -/
def mapE (f : α → Except PyErr β) : List α → Except PyErr (List β)
  | [] => .ok []
  | a :: l =>
    match f a with
    | .error e => .error e
    | .ok b =>
      match mapE f l with
      | .error e => .error e
      | .ok bs => .ok (b :: bs)

/-- `re.findall('[0-9]+|[A-Za-z]+', value)` over a character list:
maximal digit runs and maximal ASCII-letter runs, in order (fuel-indexed
so the kernel can evaluate it). -/
def tokenizeF : ℕ → List Char → List String
  | 0, _ => []
  | _, [] => []
  | fuel + 1, c :: cs =>
    if c.isDigit then
      String.mk (c :: cs.takeWhile Char.isDigit) :: tokenizeF fuel (cs.dropWhile Char.isDigit)
    else if c.isAlpha then
      String.mk (c :: cs.takeWhile Char.isAlpha) :: tokenizeF fuel (cs.dropWhile Char.isAlpha)
    else tokenizeF fuel cs

/-- All digit-runs and letter-runs of a character list. -/
def tokenize (l : List Char) : List String := tokenizeF l.length l

/-- Decimal value of a digit string, as Python's `int` computes it. -/
def digitsToNat (l : List Char) : ℕ :=
  l.foldl (fun acc c => acc * 10 + (c.toNat - Char.toNat (Char.ofNat 48))) 0

/-- Python `int(s)` restricted to the plain digit strings that occur here:
`some` on a nonempty all-digit string, `none` (a `ValueError`) otherwise. -/
def pyIntParse (s : String) : Option ℕ :=
  if s.data ≠ [] ∧ s.data.all Char.isDigit then some (digitsToNat s.data) else none

/-- Rational multiplication.  (`Rat.mul` is sealed against unfolding, so
the embedding computes through `mkRat`, which normalizes.) -/
def qmul (a b : ℚ) : ℚ := mkRat (a.num * b.num) (a.den * b.den)

/-- Rational addition, through `mkRat`. -/
def qadd (a b : ℚ) : ℚ := mkRat (a.num * (b.den : ℤ) + b.num * (a.den : ℤ)) (a.den * b.den)

/-- Rational subtraction, through `mkRat`. -/
def qsub (a b : ℚ) : ℚ := qadd a (Rat.neg b)

/-- Rational division, through `mkRat` (total, never applied to a zero
divisor by this module). -/
def qdiv (a b : ℚ) : ℚ :=
  if 0 ≤ b.num then mkRat (a.num * (b.den : ℤ)) (a.den * b.num.toNat)
  else mkRat (Int.neg (a.num * (b.den : ℤ))) (a.den * (Int.neg b.num).toNat)

/-- Python `str.lower()` on one character: the tokens it is applied to
here are plain ASCII runs. -/
def lowerChar (c : Char) : Char :=
  if c.isUpper then Char.ofNat (c.toNat + 32) else c

/-- Python `str.lower()`. -/
def strToLower (s : String) : String := String.mk (s.data.map lowerChar)

/-- The unit the converter resolves: the second token when the string has
exactly two tokens, else the caller-supplied default unit
(`fio_metrics.py` lines 172-176). -/
def resolvedUnit (value defaultUnit : String) : String :=
  match tokenize value.data with
  | [_, u] => u
  | _ => defaultUnit

/-- `_convert_value(value, conversion_dict, default_unit)`
(`fio_metrics.py` lines 149-180).  `num_unit[0]` on an empty findall
result is an `IndexError`; the dict lookup of the lower-cased unit
(`KeyError` when absent) happens before `int(num)` (`ValueError` when the
first token is not numeric). -/
def convertValue (value : String) (conversionDict : List (String × ℚ))
    (defaultUnit : String) : Except PyErr ℚ :=
  let unit := resolvedUnit value defaultUnit
  match tokenize value.data with
  | [] => .error .indexError
  | num :: _ =>
    match conversionDict.lookup (strToLower unit) with
    | none => .error (.keyError (strToLower unit))
    | some multFactor =>
      match pyIntParse num with
      | none => .error (.valueError num)
      | some n => .ok (qmul (n : ℚ) multFactor)

/-- `FILESIZE_CONVERSION` (`fio_metrics.py` lines 125-137). -/
def filesizeConversion : List (String × ℚ) :=
  [("b", mkRat 1 1000), ("k", 1), ("kb", 1), ("m", 1000), ("mb", 1000),
   ("g", 1000000), ("gb", 1000000), ("t", 1000000000), ("tb", 1000000000),
   ("p", 1000000000000), ("pb", 1000000000000)]

/-- `RAMPTIME_CONVERSION` (`fio_metrics.py` lines 139-146). -/
def ramptimeConversion : List (String × ℚ) :=
  [("us", mkRat 1 1000), ("ms", 1), ("s", 1000), ("m", 60000),
   ("h", 3600000), ("d", 86400000)]

/-- `_get_rw` (`fio_metrics.py` lines 183-200), applied to a stored
parameter value: collapses read/randread/write/randwrite, `ValueError`
otherwise (a non-string value is never in either list). -/
def getRw (v : PValue) : Except PyErr String :=
  match v with
  | .str s =>
    if s = "read" ∨ s = "randread" then .ok "read"
    else if s = "write" ∨ s = "randwrite" then .ok "write"
    else .error (.valueError "Only read/randread/write/randwrite are supported")
  | .num _ => .error (.valueError "Only read/randread/write/randwrite are supported")

/-- Python's `//` on the exact rationals that model its numbers. -/
def pyFloorDiv (x y : ℚ) : ℤ := Rat.floor (qdiv x y)

/-- Python's `round` to an integer: nearest, ties to even. -/
def pyRound (q : ℚ) : ℤ :=
  let f := Rat.floor q
  let r := qsub q (f : ℚ)
  if r < mkRat 1 2 then f
  else if mkRat 1 2 < r then f + 1
  else if f % 2 = 0 then f else f + 1

example : pyRound (mkRat 5 2) = 2 := by decide
example : pyRound (mkRat 7 2) = 4 := by decide
example : pyRound (mkRat (-5) 2) = -2 := by decide
example : tokenize "50M".data = ["50", "M"] := by decide
example : tokenize "ab5cd".data = ["ab", "5", "cd"] := by decide
example : convertValue "5s" ramptimeConversion "s" = .ok 5000 := by decide
example : convertValue "50m" filesizeConversion "" = .ok 50000 := by decide
example : convertValue "" ramptimeConversion "s" = .error .indexError := by decide
example : convertValue "s" ramptimeConversion "" = .error (.keyError "") := by decide

/-- `JobParam` (`fio_metrics.py` lines 53-75): output key, FIO option key,
formatter and default value of one tracked job parameter. -/
structure JobParam where
  name : String
  json_name : String
  format : String → Except PyErr PValue
  default : PValue

/-- `JobMetric` (`fio_metrics.py` lines 78-94): output key, nested key
path inside the read/write block, and unit-conversion factor. -/
structure JobMetric where
  name : String
  levels : List String
  conversion : ℚ

/-- `REQ_JOB_PARAMS` (`fio_metrics.py` lines 97-105): `rw` is stored as
is (default `'read'`), `filesize` goes through `_convert_value` with
`FILESIZE_CONVERSION` (default 0), `numjobs` through `int` (default 1). -/
def REQ_JOB_PARAMS : List JobParam :=
  [⟨"rw", "rw", fun v => .ok (.str v), .str "read"⟩,
   ⟨"filesize_kb", "filesize",
     fun v =>
       match convertValue v filesizeConversion "" with
       | .error e => .error e
       | .ok q => .ok (.num q), .num 0⟩,
   ⟨"num_threads", "numjobs",
     fun v =>
       match pyIntParse v with
       | none => .error (.valueError v)
       | some n => .ok (.num (n : ℚ)), .num 1⟩]

/-- `NS_TO_S = 10**(-9)` (`fio_metrics.py` line 50). -/
def nsToS : ℚ := mkRat 1 1000000000

/-- `REQ_JOB_METRICS` (`fio_metrics.py` lines 107-118). -/
def REQ_JOB_METRICS : List JobMetric :=
  [⟨"iops", ["iops"], 1⟩,
   ⟨"bw_bytes", ["bw_bytes"], 1⟩,
   ⟨"io_bytes", ["io_bytes"], 1⟩,
   ⟨"lat_s_min", ["lat_ns", "min"], nsToS⟩,
   ⟨"lat_s_max", ["lat_ns", "max"], nsToS⟩,
   ⟨"lat_s_mean", ["lat_ns", "mean"], nsToS⟩,
   ⟨"lat_s_perc_20", ["lat_ns", "percentile", "20.000000"], nsToS⟩,
   ⟨"lat_s_perc_50", ["lat_ns", "percentile", "50.000000"], nsToS⟩,
   ⟨"lat_s_perc_90", ["lat_ns", "percentile", "90.000000"], nsToS⟩,
   ⟨"lat_s_perc_95", ["lat_ns", "percentile", "95.000000"], nsToS⟩]

/-- The `global_ramptime_ms` computation of `_get_start_end_times`
(`fio_metrics.py` lines 261-265): 0 unless the global-options block has a
`ramp_time`, which is converted with default unit seconds. -/
def globalRamptime (doc : FioDoc) : Except PyErr ℚ :=
  match doc.globalOpts with
  | none => .ok 0
  | some gopts =>
    match gopts.lookup "ramp_time" with
    | none => .ok 0
    | some v => convertValue v ramptimeConversion "s"

/-- The per-job `ramptime_ms` computation (`fio_metrics.py` lines
273-277): 0 unless the job-options block has a `ramp_time`. -/
def jobRamptime (job : FioJob) : Except PyErr ℚ :=
  match job.jobOpts with
  | none => .ok 0
  | some opts =>
    match opts.lookup "ramp_time" with
    | none => .ok 0
    | some v => convertValue v ramptimeConversion "s"

/-- `job[_get_rw(rw)]` (`fio_metrics.py` line 272 / 408): normalize the
stored `rw` parameter value and index the job object with it. -/
def jobRwBlock (job : FioJob) (rwv : PValue) : Except PyErr RVal :=
  match getRw rwv with
  | .error e => .error e
  | .ok rwStr =>
    match job.blocks.lookup rwStr with
    | none => .error (.keyError rwStr)
    | some b => .ok b

/-- `job_rw[RUNTIME]` (`fio_metrics.py` line 285): the block must be an
object containing a numeric `runtime`. -/
def runtimeOf (jobRw : RVal) : Except PyErr ℚ :=
  match jobRw with
  | .num _ => .error .typeError
  | .obj fields =>
    match fields.lookup "runtime" with
    | none => .error (.keyError "runtime")
    | some (.num q) => .ok q
    | some (.obj _) => .error .typeError

/-- `jp[RW]`: dictionary access of the `rw` key in a job's parameter
mapping (`fio_metrics.py` line 259 / 407). -/
def lookupRw (jp : List (String × PValue)) : Except PyErr PValue :=
  match jp.lookup "rw" with
  | none => .error (.keyError "rw")
  | some v => .ok v

/-- The reversed loop of `_get_start_end_times` (`fio_metrics.py` lines
267-291): jobs arrive last-to-first together with their (reversed) `rw`
parameter values; `prevStart` is `prev_start_time_s`. -/
def startEndLoop (T gr : ℚ) : List FioJob → List PValue → ℤ → Except PyErr (List (ℤ × ℤ))
  | [], _, _ => .ok []
  | _ :: _, [], _ => .error .indexError
  | job :: jobs, rwv :: rwvs, prevStart =>
    match jobRwBlock job rwv with
    | .error e => .error e
    | .ok jobRw =>
      match jobRamptime job with
      | .error e => .error e
      | .ok rpj =>
        let ramptimeMs := if rpj = 0 then gr else rpj
        let endMs : ℚ := if prevStart > 0 then qmul (prevStart : ℚ) 1000 else T
        match runtimeOf jobRw with
        | .error e => .error e
        | .ok rt =>
          let startS : ℤ := pyFloorDiv (qsub (qsub endMs rt) ramptimeMs) 1000
          let endS : ℤ := pyRound (qdiv endMs 1000)
          match startEndLoop T gr jobs rwvs startS with
          | .error e => .error e
          | .ok rest => .ok ((startS, endS) :: rest)

/-- `_get_start_end_times` (`fio_metrics.py` lines 241-293). -/
def getStartEndTimes (doc : FioDoc) (jobParams : List (List (String × PValue))) :
    Except PyErr (List (ℤ × ℤ)) :=
  match mapE lookupRw jobParams.reverse with
  | .error e => .error e
  | .ok rwRevList =>
    match globalRamptime doc with
    | .error e => .error e
    | .ok gr =>
      match startEndLoop doc.timestampMs gr doc.jobs.reverse rwRevList 0 with
      | .error e => .error e
      | .ok revTimes => .ok revTimes.reverse

/-- The `global_params` computation of `_get_job_params` (`fio_metrics.py`
lines 342-350): empty with no global-options block; otherwise one entry
per spec, formatted from the block when the source key is there, else the
spec's default. -/
def globalParamsE (doc : FioDoc) : Except PyErr (List (String × PValue)) :=
  match doc.globalOpts with
  | none => .ok []
  | some gopts =>
    mapE
      (fun p =>
        match gopts.lookup p.json_name with
        | some v =>
          match p.format v with
          | .error e => .error e
          | .ok fv => .ok (p.name, fv)
        | none => .ok (p.name, p.default))
      REQ_JOB_PARAMS

/-- The per-job body of `_get_job_params` (`fio_metrics.py` lines
353-365): empty mapping when the job has no job-options block; otherwise
job-options value if the source key is there, else
`global_params[param.name]` (a `KeyError` when that mapping is empty). -/
def jobParamsOf (globalParams : List (String × PValue)) (job : FioJob) :
    Except PyErr (List (String × PValue)) :=
  match job.jobOpts with
  | none => .ok []
  | some opts =>
    mapE
      (fun p =>
        match opts.lookup p.json_name with
        | some v =>
          match p.format v with
          | .error e => .error e
          | .ok fv => .ok (p.name, fv)
        | none =>
          match globalParams.lookup p.name with
          | some gv => .ok (p.name, gv)
          | none => .error (.keyError p.name))
      REQ_JOB_PARAMS

/-- `_get_job_params` (`fio_metrics.py` lines 295-367). -/
def getJobParams (doc : FioDoc) : Except PyErr (List (List (String × PValue))) :=
  match globalParamsE doc with
  | .error e => .error e
  | .ok globalParams => mapE (jobParamsOf globalParams) doc.jobs

/-- The nested-key walk of `_extract_metrics` (`fio_metrics.py` lines
421-427): descend one key at a time; a missing key raises the
missing-metric `NoValuesError`; `sub in val` on a number is a
`TypeError`. -/
def metricWalk (v : RVal) : List String → Except PyErr RVal
  | [] => .ok v
  | sub :: rest =>
    match v with
    | .num _ => .error .typeError
    | .obj fields =>
      match fields.lookup sub with
      | none => .error (.noValuesError sub)
      | some v2 => metricWalk v2 rest

/-- One metric of one job (`fio_metrics.py` lines 410-429): walk the key
path, then `val * metric.conversion` (a `TypeError` on a non-number). -/
def extractOne (jobRw : RVal) (m : JobMetric) : Except PyErr ℚ :=
  match metricWalk jobRw m.levels with
  | .error e => .error e
  | .ok (.num q) => .ok (qmul q m.conversion)
  | .ok (.obj _) => .error .typeError

/-- The `job_metrics` dictionary of one job (`fio_metrics.py` lines
407-429): resolve `rw` from the job's parameter mapping, index the job
with it, then extract every required metric in spec order. -/
def jobMetricsOf (job : FioJob) (jp : List (String × PValue)) :
    Except PyErr (List (String × ℚ)) :=
  match lookupRw jp with
  | .error e => .error e
  | .ok rwv =>
    match jobRwBlock job rwv with
    | .error e => .error e
    | .ok jobRw =>
      mapE
        (fun m =>
          match extractOne jobRw m with
          | .error e => .error e
          | .ok q => .ok (m.name, q))
        REQ_JOB_METRICS

/-- One assembled job record (`fio_metrics.py` lines 441-446). -/
structure JobRecord where
  params : List (String × PValue)
  startTime : ℤ
  endTime : ℤ
  metrics : List (String × ℚ)
deriving DecidableEq, Repr

/-- The loop body of `_extract_metrics` for one job (`fio_metrics.py`
lines 406-446): `none` when the job is skipped (start ≥ end, or every
metric value falsy), `some record` otherwise. -/
def jobOutcome (job : FioJob) (jp : List (String × PValue)) (t : ℤ × ℤ) :
    Except PyErr (Option JobRecord) :=
  match jobMetricsOf job jp with
  | .error e => .error e
  | .ok ms =>
    if t.1 ≥ t.2 ∨ ∀ p ∈ ms, p.2 = 0 then .ok none
    else .ok (some ⟨jp, t.1, t.2, ms⟩)

/-- The `all_jobs` accumulation of `_extract_metrics` (`fio_metrics.py`
lines 404-446): one outcome per job, indexing `job_params[i]` and
`start_end_times[i]`. -/
def extractJobs : List FioJob → List (List (String × PValue)) → List (ℤ × ℤ) →
    Except PyErr (List JobRecord)
  | [], _, _ => .ok []
  | _ :: _, [], _ => .error .indexError
  | _ :: _, _ :: _, [] => .error .indexError
  | job :: jobs, jp :: jps, t :: times =>
    match jobOutcome job jp t with
    | .error e => .error e
    | .ok o =>
      match extractJobs jobs jps times with
      | .error e => .error e
      | .ok rest =>
        match o with
        | none => .ok rest
        | some r => .ok (r :: rest)

/-- `_extract_metrics` (`fio_metrics.py` lines 369-451).  A `FioDoc` is
structurally nonempty, so the `if not fio_out` guard of line 399 never
fires here; the final guard raises the no-usable-data `NoValuesError`. -/
def extractMetrics (doc : FioDoc) : Except PyErr (List JobRecord) :=
  match getJobParams doc with
  | .error e => .error e
  | .ok jobParams =>
    match getStartEndTimes doc jobParams with
    | .error e => .error e
    | .ok startEndTimes =>
      match extractJobs doc.jobs jobParams startEndTimes with
      | .error e => .error e
      | .ok allJobs =>
        if allJobs = [] then .error (.noValuesError "No data could be extracted from file")
        else .ok allJobs

/-- One cell of a spreadsheet row. -/
inductive Cell where
  | str (s : String)
  | num (q : ℚ)
  | int (n : ℤ)
deriving DecidableEq, Repr

/-- A parameter value as a row cell. -/
def pcell : PValue → Cell
  | .str s => .str s
  | .num q => .num q

/-- The row built for one job by `_add_to_gsheet` (`fio_metrics.py` lines
460-470): parameter values in mapping order, start time, end time, then
metric values in mapping order. -/
def rowOfJob (j : JobRecord) : List Cell :=
  j.params.map (fun p => pcell p.2) ++ [.int j.startTime, .int j.endTime] ++
    j.metrics.map (fun m => .num m.2)

/-- `_add_to_gsheet`'s `values` batch (`fio_metrics.py` lines 453-472),
the row list handed to the external sheet sink. -/
def addToGsheet (jobs : List JobRecord) : List (List Cell) :=
  jobs.map rowOfJob


theorem mapE_ok_length {f : α → Except PyErr β} :
    ∀ {l : List α} {r : List β}, mapE f l = .ok r → r.length = l.length := by
  intro l
  induction l with
  | nil =>
    intro r h
    simp only [mapE] at h
    cases h
    rfl
  | cons a l ih =>
    intro r h
    simp only [mapE] at h
    cases hfa : f a with
    | error e => rw [hfa] at h; cases h
    | ok b =>
      rw [hfa] at h
      cases hml : mapE f l with
      | error e => rw [hml] at h; cases h
      | ok bs =>
        rw [hml] at h
        cases h
        simp only [List.length_cons]
        rw [ih hml]

theorem mapE_drop {f : α → Except PyErr β} :
    ∀ (i : ℕ) {l : List α} {r : List β}, mapE f l = .ok r →
      mapE f (l.drop i) = .ok (r.drop i) := by
  intro i
  induction i with
  | zero => intro l r h; simpa using h
  | succ i ih =>
    intro l r h
    cases l with
    | nil =>
      simp only [mapE] at h
      cases h
      simp [mapE]
    | cons a l =>
      simp only [mapE] at h
      cases hfa : f a with
      | error e => rw [hfa] at h; cases h
      | ok b =>
        rw [hfa] at h
        cases hml : mapE f l with
        | error e => rw [hml] at h; cases h
        | ok bs =>
          rw [hml] at h
          cases h
          simpa using ih hml

theorem mapE_ok_forall {f : α → Except PyErr β} :
    ∀ {l : List α} {r : List β}, mapE f l = .ok r →
      ∀ a ∈ l, ∃ b ∈ r, f a = .ok b := by
  intro l
  induction l with
  | nil => intro r _ a ha; cases ha
  | cons x l ih =>
    intro r h a ha
    simp only [mapE] at h
    cases hfa : f x with
    | error e => rw [hfa] at h; cases h
    | ok b =>
      rw [hfa] at h
      cases hml : mapE f l with
      | error e => rw [hml] at h; cases h
      | ok bs =>
        rw [hml] at h
        cases h
        rcases List.mem_cons.mp ha with rfl | ha2
        · exact ⟨b, List.mem_cons_self _ _, hfa⟩
        · obtain ⟨b2, hb2m, hb2⟩ := ih hml a ha2
          exact ⟨b2, List.mem_cons_of_mem _ hb2m, hb2⟩

theorem mapE_ok_mem {f : α → Except PyErr β} :
    ∀ {l : List α} {r : List β}, mapE f l = .ok r →
      ∀ b ∈ r, ∃ a ∈ l, f a = .ok b := by
  intro l
  induction l with
  | nil =>
    intro r h b hb
    simp only [mapE] at h
    cases h
    cases hb
  | cons x l ih =>
    intro r h b hb
    simp only [mapE] at h
    cases hfx : f x with
    | error e => rw [hfx] at h; cases h
    | ok b1 =>
      rw [hfx] at h
      cases hml : mapE f l with
      | error e => rw [hml] at h; cases h
      | ok bs =>
        rw [hml] at h
        cases h
        rcases List.mem_cons.mp hb with rfl | hb2
        · exact ⟨x, List.mem_cons_self _ _, hfx⟩
        · obtain ⟨a, ham, ha⟩ := ih hml b hb2
          exact ⟨a, List.mem_cons_of_mem _ ham, ha⟩

theorem mapE_error_of_mem {f : α → Except PyErr β} {l : List α} {a : α} {e : PyErr}
    (ha : a ∈ l) (hfa : f a = .error e) : ∃ e2, mapE f l = .error e2 := by
  induction l with
  | nil => cases ha
  | cons x l ih =>
    rcases List.mem_cons.mp ha with rfl | ha2
    · exact ⟨e, by simp only [mapE, hfa]⟩
    · simp only [mapE]
      cases hfx : f x with
      | error e2 => exact ⟨e2, rfl⟩
      | ok b =>
        obtain ⟨e2, he2⟩ := ih ha2
        rw [he2]
        exact ⟨e2, rfl⟩

theorem mapE_append_ok {f : α → Except PyErr β} :
    ∀ {l1 l2 : List α} {r1 r2 : List β}, mapE f l1 = .ok r1 → mapE f l2 = .ok r2 →
      mapE f (l1 ++ l2) = .ok (r1 ++ r2) := by
  intro l1
  induction l1 with
  | nil =>
    intro l2 r1 r2 h1 h2
    simp only [mapE] at h1
    cases h1
    simpa using h2
  | cons a l ih =>
    intro l2 r1 r2 h1 h2
    simp only [mapE] at h1
    cases hfa : f a with
    | error e => rw [hfa] at h1; cases h1
    | ok b =>
      rw [hfa] at h1
      cases hml : mapE f l with
      | error e => rw [hml] at h1; cases h1
      | ok bs =>
        rw [hml] at h1
        cases h1
        have h3 : mapE f (l ++ l2) = .ok (bs ++ r2) := ih hml h2
        simp only [List.cons_append, mapE, hfa]
        rw [show List.append l l2 = l ++ l2 from rfl, h3]

theorem mapE_reverse_ok {f : α → Except PyErr β} :
    ∀ {l : List α} {r : List β}, mapE f l = .ok r →
      mapE f l.reverse = .ok r.reverse := by
  intro l
  induction l with
  | nil =>
    intro r h
    simp only [mapE] at h
    cases h
    simp [mapE]
  | cons a l ih =>
    intro r h
    simp only [mapE] at h
    cases hfa : f a with
    | error e => rw [hfa] at h; cases h
    | ok b =>
      rw [hfa] at h
      cases hml : mapE f l with
      | error e => rw [hml] at h; cases h
      | ok bs =>
        rw [hml] at h
        cases h
        simp only [List.reverse_cons]
        exact mapE_append_ok (ih hml) (by simp only [mapE, hfa])

theorem mapE_fst {γ : Type} {f : α → Except PyErr (String × γ)} {nm : α → String}
    (hf : ∀ a b, f a = .ok b → b.1 = nm a) :
    ∀ {l : List α} {r : List (String × γ)}, mapE f l = .ok r →
      r.map Prod.fst = l.map nm := by
  intro l
  induction l with
  | nil =>
    intro r h
    simp only [mapE] at h
    cases h
    rfl
  | cons a l ih =>
    intro r h
    simp only [mapE] at h
    cases hfa : f a with
    | error e => rw [hfa] at h; cases h
    | ok b =>
      rw [hfa] at h
      cases hml : mapE f l with
      | error e => rw [hml] at h; cases h
      | ok bs =>
        rw [hml] at h
        cases h
        simp only [List.map_cons]
        rw [ih hml, hf a b hfa]

theorem mapE_assoc_lookup {γ : Type} {f : α → Except PyErr (String × γ)} {nm : α → String}
    (hf : ∀ a b, f a = .ok b → b.1 = nm a) :
    ∀ {l : List α} {r : List (String × γ)}, mapE f l = .ok r → (l.map nm).Nodup →
      ∀ a ∈ l, ∃ c, f a = .ok (nm a, c) ∧ r.lookup (nm a) = some c := by
  intro l
  induction l with
  | nil => intro r _ _ a ha; cases ha
  | cons x l ih =>
    intro r h hnd a ha
    simp only [mapE] at h
    cases hfx : f x with
    | error e => rw [hfx] at h; cases h
    | ok b =>
      rw [hfx] at h
      cases hml : mapE f l with
      | error e => rw [hml] at h; cases h
      | ok bs =>
        rw [hml] at h
        cases h
        have hb1 : b.1 = nm x := hf x b hfx
        simp only [List.map_cons, List.nodup_cons] at hnd
        rcases List.mem_cons.mp ha with rfl | ha2
        · refine ⟨b.2, ?_, ?_⟩
          · rw [← hb1, Prod.mk.eta]
            exact hfx
          · simp [List.lookup, hb1]
        · obtain ⟨c, hc1, hc2⟩ := ih hml hnd.2 a ha2
          refine ⟨c, hc1, ?_⟩
          have hne : nm a ≠ b.1 := by
            rw [hb1]
            intro hcon
            exact hnd.1 (hcon ▸ List.mem_map_of_mem nm ha2)
          have hne2 : (nm a == b.1) = false := beq_eq_false_iff_ne.mpr hne
          simp [List.lookup, hne2, hc2]

/-- The chained time-window property, read off the claim: walking the
job list (in original order), each job's `end_time_ms` is the following
job's start seconds times 1000 when that start is positive, else the
document timestamp `T`; the last job's `end_time_ms` is `lastEnd`
(instantiated with `T` at the top level); start seconds floor-divide by
1000, end seconds round; the ramp-time in force is the job's own when it
is nonzero, else the global one `gr`. -/
def chainE (T gr lastEnd : ℚ) : List FioJob → List PValue → List (ℤ × ℤ) → Prop
  | [], [], [] => True
  | job :: jobs, rwv :: rwvs, (s, e) :: rest =>
    (∃ jobRw rt rpj,
      jobRwBlock job rwv = .ok jobRw ∧
      jobRamptime job = .ok rpj ∧
      runtimeOf jobRw = .ok rt ∧
      s = pyFloorDiv
        (qsub
          (qsub
            (match rest with
             | [] => lastEnd
             | (s2, _) :: _ => if s2 > 0 then qmul (s2 : ℚ) 1000 else T)
            rt)
          (if rpj = 0 then gr else rpj)) 1000 ∧
      e = pyRound (qdiv
        (match rest with
         | [] => lastEnd
         | (s2, _) :: _ => if s2 > 0 then qmul (s2 : ℚ) 1000 else T) 1000)) ∧
    chainE T gr lastEnd jobs rwvs rest
  | _, _, _ => False

theorem chainE_append {T gr L1 L2 : ℚ} {s e : ℤ} {J : FioJob} {rwv : PValue} :
    ∀ {jobs : List FioJob} {rwvs : List PValue} {tl : List (ℤ × ℤ)},
    chainE T gr L1 jobs rwvs tl →
    L1 = (if s > 0 then qmul (s : ℚ) 1000 else T) →
    (∃ jobRw rt rpj,
      jobRwBlock J rwv = .ok jobRw ∧
      jobRamptime J = .ok rpj ∧
      runtimeOf jobRw = .ok rt ∧
      s = pyFloorDiv (qsub (qsub L2 rt) (if rpj = 0 then gr else rpj)) 1000 ∧
      e = pyRound (qdiv L2 1000)) →
    chainE T gr L2 (jobs ++ [J]) (rwvs ++ [rwv]) (tl ++ [(s, e)]) := by
  intro jobs
  induction jobs with
  | nil =>
    intro rwvs tl hc hL1 hnew
    cases rwvs with
    | cons r rs => cases tl with
      | nil => exact absurd hc (by simp [chainE])
      | cons t ts => exact absurd hc (by simp [chainE])
    | nil =>
      cases tl with
      | cons t ts => exact absurd hc (by simp [chainE])
      | nil =>
        simp only [List.nil_append, chainE]
        exact ⟨hnew, trivial⟩
  | cons j js ih =>
    intro rwvs tl hc hL1 hnew
    cases rwvs with
    | nil =>
      cases tl with
      | nil => exact absurd hc (by simp [chainE])
      | cons t ts => exact absurd hc (by simp [chainE])
    | cons r rs =>
      cases tl with
      | nil => exact absurd hc (by simp [chainE])
      | cons t ts =>
        obtain ⟨a, b⟩ := t
        simp only [chainE] at hc
        obtain ⟨hhead, htail⟩ := hc
        simp only [List.cons_append, chainE]
        refine ⟨?_, ih htail hL1 hnew⟩
        obtain ⟨jobRw, rt, rpj, h1, h2, h3, h4, h5⟩ := hhead
        refine ⟨jobRw, rt, rpj, h1, h2, h3, ?_, ?_⟩
        · cases ts with
          | nil =>
            rw [hL1] at h4
            exact h4
          | cons t2 ts2 =>
            obtain ⟨c, d⟩ := t2
            exact h4
        · cases ts with
          | nil =>
            rw [hL1] at h5
            exact h5
          | cons t2 ts2 =>
            obtain ⟨c, d⟩ := t2
            exact h5

theorem startEndLoop_chainE {T gr : ℚ} :
    ∀ {jobsR : List FioJob} {rwvsR : List PValue} {prev : ℤ} {out : List (ℤ × ℤ)},
      startEndLoop T gr jobsR rwvsR prev = .ok out →
      rwvsR.length = jobsR.length →
      out.length = jobsR.length ∧
      chainE T gr (if prev > 0 then qmul (prev : ℚ) 1000 else T)
        jobsR.reverse rwvsR.reverse out.reverse := by
  intro jobsR
  induction jobsR with
  | nil =>
    intro rwvsR prev out h hlen
    cases rwvsR with
    | cons r rs => cases hlen
    | nil =>
      simp only [startEndLoop] at h
      cases h
      simp [chainE]
  | cons J js ih =>
    intro rwvsR prev out h hlen
    cases rwvsR with
    | nil => cases hlen
    | cons r rs =>
      simp only [startEndLoop] at h
      split at h
      · cases h
      · rename_i jobRw hjb
        split at h
        · cases h
        · rename_i rpj hrp
          split at h
          · cases h
          · rename_i rt hrt
            split at h
            · cases h
            · rename_i rest hrec
              cases h
              have hlen2 : rs.length = js.length := by
                simpa using hlen
              obtain ⟨hrl, hchain⟩ := ih hrec hlen2
              constructor
              · simp [hrl]
              · simp only [List.reverse_cons]
                exact chainE_append hchain rfl
                  ⟨jobRw, rt, rpj, hjb, hrp, hrt, rfl, rfl⟩

theorem chainE_tail {T gr L : ℚ} {j : FioJob} {r : PValue} {t : ℤ × ℤ}
    {js : List FioJob} {rs : List PValue} {ts : List (ℤ × ℤ)}
    (h : chainE T gr L (j :: js) (r :: rs) (t :: ts)) :
    chainE T gr L js rs ts := by
  obtain ⟨s, e⟩ := t
  exact h.2

theorem chainE_drop {T gr L : ℚ} :
    ∀ (i : ℕ) {jobs : List FioJob} {rwvs : List PValue} {ts : List (ℤ × ℤ)},
      chainE T gr L jobs rwvs ts →
      chainE T gr L (jobs.drop i) (rwvs.drop i) (ts.drop i) := by
  intro i
  induction i with
  | zero => intro jobs rwvs ts h; simpa using h
  | succ i ih =>
    intro jobs rwvs ts h
    cases jobs with
    | nil =>
      cases rwvs with
      | nil =>
        cases ts with
        | nil => simp [chainE]
        | cons t ts2 => exact absurd h (by simp [chainE])
      | cons r rs => exact absurd h (by simp [chainE])
    | cons j js =>
      cases rwvs with
      | nil => exact absurd h (by simp [chainE])
      | cons r rs =>
        cases ts with
        | nil => exact absurd h (by simp [chainE])
        | cons t ts2 =>
          simpa using ih (chainE_tail h)

/-- The `rw` values consumed by `_get_start_end_times`, recovered in
original job order: `rw_rev_list` is built over the reversed parameter
list, so its reverse lines up with the document's job order. -/
theorem getStartEndTimes_chainE {doc : FioDoc}
    {jps : List (List (String × PValue))} {ts : List (ℤ × ℤ)}
    (h : getStartEndTimes doc jps = .ok ts)
    (hlen : jps.length = doc.jobs.length) :
    ∃ rwRev gr,
      mapE lookupRw jps.reverse = .ok rwRev ∧
      globalRamptime doc = .ok gr ∧
      ts.length = doc.jobs.length ∧
      chainE doc.timestampMs gr doc.timestampMs doc.jobs rwRev.reverse ts := by
  unfold getStartEndTimes at h
  split at h
  · cases h
  · rename_i rwRev hrw
    split at h
    · cases h
    · rename_i gr hgr
      split at h
      · cases h
      · rename_i revTimes hloop
        cases h
        have hlen2 : rwRev.length = doc.jobs.reverse.length := by
          rw [mapE_ok_length hrw]
          simp [hlen]
        obtain ⟨hl, hchain⟩ := startEndLoop_chainE hloop hlen2
        refine ⟨rwRev, gr, hrw, hgr, ?_, ?_⟩
        · simp at hl
          simp [hl]
        · have h0 : ¬ ((0 : ℤ) > 0) := by simp
          rw [if_neg h0, List.reverse_reverse] at hchain
          exact hchain

/-- C1: for every input document (and parameter list of matching length),
the Time-Window Reconstructor returns one (start_seconds, end_seconds)
pair per job, in original job order, satisfying the reference algorithm:
walking jobs last to first, the last job's `end_time_ms` is the
document's `timestamp_ms`; an earlier job's `end_time_ms` is the
following job's start seconds times 1000 whenever that start is positive;
each job's `start_time_ms` is its `end_time_ms` minus its runtime and its
(resolved) ramp-time in milliseconds; start seconds floor-divide by 1000
and end seconds round to the nearest integer (ties to even, as Python's
`round`).  The chain is stated by `chainE` over the job list in original
order. -/
theorem c1_time_window_reconstruction (doc : FioDoc)
    (jps : List (List (String × PValue))) (ts : List (ℤ × ℤ))
    (h : getStartEndTimes doc jps = .ok ts)
    (hlen : jps.length = doc.jobs.length) :
    ts.length = doc.jobs.length ∧
    ∃ rwRev gr,
      mapE lookupRw jps.reverse = .ok rwRev ∧
      globalRamptime doc = .ok gr ∧
      chainE doc.timestampMs gr doc.timestampMs doc.jobs rwRev.reverse ts := by
  obtain ⟨rwRev, gr, h1, h2, h3, h4⟩ := getStartEndTimes_chainE h hlen
  exact ⟨h3, rwRev, gr, h1, h2, h4⟩

/-- The single-job document of C1's example: `timestamp_ms`
1653027155000, runtime 71000 ms, no ramp-time anywhere. -/
def c1Doc : FioDoc :=
  { globalOpts := none
    timestampMs := 1653027155000
    jobs := [{ jobOpts := none
               blocks := [("read", RVal.obj [("runtime", RVal.num 71000)])] }] }

/-- A parameter list for `c1Doc` as `_get_job_params` would hand over. -/
def c1Jps : List (List (String × PValue)) := [[("rw", PValue.str "read")]]

/-- Witness for C1 at the claim's example: start_seconds =
(1653027155000 − 71000) // 1000 = 1653027084 and end_seconds =
round(1653027155000 / 1000) = 1653027155. -/
theorem c1_time_window_reconstruction_witness :
    getStartEndTimes c1Doc c1Jps = .ok [(1653027084, 1653027155)] ∧
    pyFloorDiv (qsub (qsub (1653027155000 : ℚ) 71000) 0) 1000 = 1653027084 ∧
    pyRound (qdiv (1653027155000 : ℚ) 1000) = 1653027155 ∧
    (([(1653027084, 1653027155)] : List (ℤ × ℤ)).length = c1Doc.jobs.length ∧
      ∃ rwRev gr,
        mapE lookupRw c1Jps.reverse = .ok rwRev ∧
        globalRamptime c1Doc = .ok gr ∧
        chainE c1Doc.timestampMs gr c1Doc.timestampMs c1Doc.jobs rwRev.reverse
          [(1653027084, 1653027155)]) :=
  ⟨by decide, by decide, by decide,
    c1_time_window_reconstruction c1Doc c1Jps [(1653027084, 1653027155)]
      (by decide) (by decide)⟩

/-- The document refuting C3: the job's own ramp-time is `"0"`
(which converts to 0 ms) while the global ramp-time is `"5s"`. -/
def c3Doc : FioDoc :=
  { globalOpts := some [("ramp_time", "5s")]
    timestampMs := 1000000000
    jobs := [{ jobOpts := some [("ramp_time", "0")]
               blocks := [("read", RVal.obj [("runtime", RVal.num 71000)])] }] }

/-- A parameter list for `c3Doc`. -/
def c3Jps : List (List (String × PValue)) := [[("rw", PValue.str "read")]]

/-- C3 counterexample: the job's per-job ramp-time converts to 0 ms, and
the claim says that 0 is then the value used, which would give
start_seconds (1000000000 − 71000 − 0) // 1000 = 999929; the code
replaces a zero per-job ramp-time by the global 5000 ms and returns
999924. -/
theorem c3_counterexample :
    convertValue "0" ramptimeConversion "s" = .ok 0 ∧
    convertValue "5s" ramptimeConversion "s" = .ok 5000 ∧
    getStartEndTimes c3Doc c3Jps = .ok [(999924, 1000000)] ∧
    pyFloorDiv (qsub (qsub (1000000000 : ℚ) 71000) 0) 1000 = 999929 ∧
    (999924 : ℤ) ≠ 999929 :=
  ⟨by decide, by decide, by decide, by decide, by decide⟩

/-- C3 (amended): when a job's per-job options specify a ramp-time, the
start-time computation uses that value exactly when it converts to a
nonzero number of milliseconds; when it is absent or converts to 0 ms,
the document-level ramp-time is used instead (the resolved value is
`if rpj = 0 then gr else rpj`). -/
theorem c3_ramptime_resolution (doc : FioDoc)
    (jps : List (List (String × PValue))) (ts : List (ℤ × ℤ))
    (h : getStartEndTimes doc jps = .ok ts)
    (hlen : jps.length = doc.jobs.length)
    (i : ℕ) (job : FioJob) (jobsRest : List FioJob)
    (hdrop : doc.jobs.drop i = job :: jobsRest)
    (opts : List (String × String)) (v : String) (rpj : ℚ)
    (hopts : job.jobOpts = some opts)
    (hv : opts.lookup "ramp_time" = some v)
    (hconv : convertValue v ramptimeConversion "s" = .ok rpj) :
    ∃ gr rwv jobRw rt s e tsRest,
      globalRamptime doc = .ok gr ∧
      jobRwBlock job rwv = .ok jobRw ∧
      runtimeOf jobRw = .ok rt ∧
      ts.drop i = (s, e) :: tsRest ∧
      ∃ endMs,
        (tsRest = [] → endMs = doc.timestampMs) ∧
        (∀ s2 e2 rest2, tsRest = (s2, e2) :: rest2 →
          endMs = if s2 > 0 then qmul (s2 : ℚ) 1000 else doc.timestampMs) ∧
        s = pyFloorDiv (qsub (qsub endMs rt) (if rpj = 0 then gr else rpj)) 1000 := by
  obtain ⟨rwRev, gr, h1, h2, h3, h4⟩ := getStartEndTimes_chainE h hlen
  have hdropped := chainE_drop i h4
  rw [hdrop] at hdropped
  rcases hrv : rwRev.reverse.drop i with _ | ⟨rwv, rwvsRest⟩ <;> rw [hrv] at hdropped
  · rcases hts : ts.drop i with _ | ⟨⟨s, e⟩, tsRest⟩ <;> rw [hts] at hdropped <;>
      simp [chainE] at hdropped
  · rcases hts : ts.drop i with _ | ⟨⟨s, e⟩, tsRest⟩ <;> rw [hts] at hdropped
    · simp [chainE] at hdropped
    · simp only [chainE] at hdropped
      obtain ⟨⟨jobRw, rt, rpj2, hjb, hrp, hrt, hs, he⟩, _⟩ := hdropped
      have hrpj : jobRamptime job = .ok rpj := by
        simp only [jobRamptime, hopts, hv]
        exact hconv
      rw [hrpj] at hrp
      cases hrp
      refine ⟨gr, rwv, jobRw, rt, s, e, tsRest, h2, hjb, hrt, rfl, ?_⟩
      cases tsRest with
      | nil =>
        refine ⟨doc.timestampMs, fun _ => rfl, ?_, hs⟩
        intro s2 e2 rest2 hc
        cases hc
      | cons t2 rest2 =>
        obtain ⟨s2, e2⟩ := t2
        refine ⟨if s2 > 0 then qmul (s2 : ℚ) 1000 else doc.timestampMs, ?_, ?_, hs⟩
        · intro hc
          cases hc
        · intro s3 e3 rest3 hc
          cases hc
          rfl

/-- The job of `c3wDoc`: its own ramp-time `"2s"` converts to 2000 ms. -/
def c3wJob : FioJob :=
  { jobOpts := some [("ramp_time", "2s")]
    blocks := [("read", RVal.obj [("runtime", RVal.num 71000)])] }

/-- Witness document for the amended C3: per-job ramp-time `"2s"`
(nonzero), global ramp-time `"5s"`. -/
def c3wDoc : FioDoc :=
  { globalOpts := some [("ramp_time", "5s")]
    timestampMs := 1000000000
    jobs := [c3wJob] }

/-- Witness for the amended C3: the nonzero per-job ramp-time 2000 ms is
the value used — start_seconds = (1000000000 − 71000 − 2000) // 1000 =
999927, not the 999924 the global 5000 ms would give. -/
theorem c3_ramptime_resolution_witness :
    convertValue "2s" ramptimeConversion "s" = .ok 2000 ∧
    (2000 : ℚ) ≠ 0 ∧
    getStartEndTimes c3wDoc c3Jps = .ok [(999927, 1000000)] ∧
    pyFloorDiv (qsub (qsub (1000000000 : ℚ) 71000) 2000) 1000 = 999927 ∧
    (∃ gr rwv jobRw rt s e tsRest,
      globalRamptime c3wDoc = .ok gr ∧
      jobRwBlock c3wJob rwv = .ok jobRw ∧
      runtimeOf jobRw = .ok rt ∧
      ([(999927, 1000000)] : List (ℤ × ℤ)).drop 0 = (s, e) :: tsRest ∧
      ∃ endMs,
        (tsRest = [] → endMs = c3wDoc.timestampMs) ∧
        (∀ s2 e2 rest2, tsRest = (s2, e2) :: rest2 →
          endMs = if s2 > 0 then qmul (s2 : ℚ) 1000 else c3wDoc.timestampMs) ∧
        s = pyFloorDiv (qsub (qsub endMs rt)
          (if (2000 : ℚ) = 0 then gr else 2000)) 1000) :=
  ⟨by decide, by decide, by decide, by decide,
    c3_ramptime_resolution c3wDoc c3Jps [(999927, 1000000)] (by decide) (by decide)
      0 c3wJob [] rfl [("ramp_time", "2s")] "2s" 2000 rfl rfl (by decide)⟩

theorem not_digit_of_alpha {c : Char} (h : c.isAlpha = true) : c.isDigit = false := by
  simp only [Char.isAlpha, Char.isUpper, Char.isLower, Char.isDigit, Bool.or_eq_true,
    Bool.and_eq_true, decide_eq_true_eq, ge_iff_le] at h ⊢
  rw [Bool.and_eq_false_iff]
  right
  simp only [decide_eq_false_iff_not]
  intro hc
  have hcn : c.val.toNat ≤ 57 := hc
  rcases h with ⟨h1, h2⟩ | ⟨h1, h2⟩
  · have h1n : (65 : ℕ) ≤ c.val.toNat := h1
    omega
  · have h1n : (97 : ℕ) ≤ c.val.toNat := h1
    omega

theorem takeWhile_run {p : Char → Bool} :
    ∀ {l1 l2 : List Char}, (∀ c ∈ l1, p c = true) →
      (l2 = [] ∨ ∃ c2 cs2, l2 = c2 :: cs2 ∧ p c2 = false) →
      (l1 ++ l2).takeWhile p = l1 ∧ (l1 ++ l2).dropWhile p = l2 := by
  intro l1
  induction l1 with
  | nil =>
    intro l2 _ hl2
    rcases hl2 with rfl | ⟨c2, cs2, rfl, hc2⟩
    · exact ⟨rfl, rfl⟩
    · constructor
      · simp [List.takeWhile, hc2]
      · simp [List.dropWhile, hc2]
  | cons c l ih =>
    intro l2 h1 hl2
    have hc : p c = true := h1 c (List.mem_cons_self _ _)
    have ihr := ih (fun x hx => h1 x (List.mem_cons_of_mem _ hx)) hl2
    constructor
    · simp only [List.cons_append, List.takeWhile, hc]
      exact congrArg (List.cons c) ihr.1
    · simp only [List.cons_append, List.dropWhile, hc]
      exact ihr.2

theorem length_dropWhile_le (p : Char → Bool) :
    ∀ (l : List Char), (l.dropWhile p).length ≤ l.length := by
  intro l
  induction l with
  | nil => simp [List.dropWhile]
  | cons c cs ih =>
    simp only [List.dropWhile]
    cases p c with
    | true => exact le_trans ih (Nat.le_succ _)
    | false => simp

theorem tokenizeF_congr :
    ∀ (f1 : ℕ) {l : List Char} (f2 : ℕ), l.length ≤ f1 → l.length ≤ f2 →
      tokenizeF f1 l = tokenizeF f2 l := by
  intro f1
  induction f1 with
  | zero =>
    intro l f2 h1 h2
    have hl : l = [] := List.eq_nil_of_length_eq_zero (Nat.le_zero.mp h1)
    subst hl
    cases f2 <;> simp [tokenizeF]
  | succ f1 ih =>
    intro l f2 h1 h2
    cases l with
    | nil => cases f2 <;> simp [tokenizeF]
    | cons c cs =>
      cases f2 with
      | zero => simp at h2
      | succ f2 =>
        simp only [List.length_cons, Nat.succ_le_succ_iff] at h1 h2
        have hdrop1 : ∀ q : Char → Bool, (cs.dropWhile q).length ≤ f1 :=
          fun q => le_trans (length_dropWhile_le q cs) h1
        have hdrop2 : ∀ q : Char → Bool, (cs.dropWhile q).length ≤ f2 :=
          fun q => le_trans (length_dropWhile_le q cs) h2
        cases hd : c.isDigit with
        | true =>
          simp [tokenizeF, hd, ih f2 (hdrop1 _) (hdrop2 _)]
        | false =>
          cases hA : c.isAlpha with
          | true =>
            simp [tokenizeF, hd, hA, ih f2 (hdrop1 _) (hdrop2 _)]
          | false =>
            simp [tokenizeF, hd, hA, ih f2 h1 h2]

theorem tokenize_digit_run {nd rest : List Char} (hne : nd ≠ [])
    (hd : ∀ c ∈ nd, c.isDigit = true)
    (hrest : rest = [] ∨ ∃ c2 cs2, rest = c2 :: cs2 ∧ c2.isDigit = false) :
    tokenize (nd ++ rest) = String.mk nd :: tokenize rest := by
  cases nd with
  | nil => exact absurd rfl hne
  | cons c nd2 =>
    have hc := hd c (List.mem_cons_self _ _)
    have hrun := takeWhile_run
      (fun x hx => hd x (List.mem_cons_of_mem _ hx)) hrest
    show tokenizeF (c :: (nd2 ++ rest)).length (c :: (nd2 ++ rest)) = _
    simp only [List.length_cons, tokenizeF, hc, if_true]
    rw [hrun.1, hrun.2]
    have hlen : rest.length ≤ (nd2 ++ rest).length := by
      simp [List.length_append]
    rw [tokenizeF_congr (nd2 ++ rest).length rest.length hlen le_rfl]
    rfl

theorem tokenize_alpha_run {ua rest : List Char} (hne : ua ≠ [])
    (ha : ∀ c ∈ ua, c.isAlpha = true)
    (hrest : rest = [] ∨ ∃ c2 cs2, rest = c2 :: cs2 ∧ c2.isAlpha = false ∧
      c2.isDigit = false) :
    tokenize (ua ++ rest) = String.mk ua :: tokenize rest := by
  cases ua with
  | nil => exact absurd rfl hne
  | cons c ua2 =>
    have hc := ha c (List.mem_cons_self _ _)
    have hcd : c.isDigit = false := not_digit_of_alpha hc
    have hrest2 : rest = [] ∨ ∃ c2 cs2, rest = c2 :: cs2 ∧ c2.isAlpha = false := by
      rcases hrest with rfl | ⟨c2, cs2, rfl, h1, h2⟩
      · exact Or.inl rfl
      · exact Or.inr ⟨c2, cs2, rfl, h1⟩
    have hrun := takeWhile_run
      (fun x hx => ha x (List.mem_cons_of_mem _ hx)) hrest2
    show tokenizeF (c :: (ua2 ++ rest)).length (c :: (ua2 ++ rest)) = _
    simp only [List.length_cons, tokenizeF, hcd, hc, if_true, if_false]
    rw [hrun.1, hrun.2]
    have hlen : rest.length ≤ (ua2 ++ rest).length := by
      simp [List.length_append]
    rw [tokenizeF_congr (ua2 ++ rest).length rest.length hlen le_rfl]
    rfl

/-- C6 counterexample: the claim says the converter returns an integer,
but for `"1b"` with the file-size table (multiplier 1/1000 for `b`,
Python float `0.001`) the returned value is 1/1000, which is not an
integer. -/
theorem c6_counterexample :
    convertValue "1b" filesizeConversion "" = .ok (mkRat 1 1000) ∧
    (mkRat 1 1000).den ≠ 1 :=
  ⟨by decide, by decide⟩

/-- C6 (amended): for every input string made of a nonempty numeric token
followed by an optional alphabetic unit token whose lower-cased form is in
the table (the default unit being looked up when the unit token is
empty), the converter returns the numeric value multiplied by the table's
multiplier for that unit — an integer only when that product has
denominator 1, e.g. when the multiplier is integral. -/
theorem c6_convert_value (nd ua : List Char)
    (conv : List (String × ℚ)) (defaultUnit : String) (mult : ℚ)
    (hne : nd ≠ []) (hd : ∀ c ∈ nd, c.isDigit = true)
    (ha : ∀ c ∈ ua, c.isAlpha = true)
    (hmult : conv.lookup
      (strToLower (if ua.isEmpty then defaultUnit else String.mk ua)) = some mult) :
    convertValue (String.mk (nd ++ ua)) conv defaultUnit =
      .ok (qmul ((digitsToNat nd : ℕ) : ℚ) mult) := by
  have hdata : (String.mk (nd ++ ua)).data = nd ++ ua := rfl
  have htok : tokenize (nd ++ ua) =
      if ua.isEmpty then [String.mk nd] else [String.mk nd, String.mk ua] := by
    cases hua : ua with
    | nil =>
      simp only [List.isEmpty_nil, if_true, List.append_nil]
      have h := tokenize_digit_run hne hd (Or.inl rfl)
      simpa [tokenize, tokenizeF] using h
    | cons c2 cs2 =>
      simp only [List.isEmpty_cons, if_false]
      have hc2a : c2.isAlpha = true := ha c2 (hua ▸ List.mem_cons_self _ _)
      have h1 := tokenize_digit_run hne hd
        (Or.inr ⟨c2, cs2, rfl, not_digit_of_alpha hc2a⟩)
      have h2 : tokenize (c2 :: cs2 ++ ([] : List Char)) =
          String.mk (c2 :: cs2) :: tokenize [] :=
        tokenize_alpha_run (by intro hcon; cases hcon) (hua ▸ ha) (Or.inl rfl)
      rw [h1]
      rw [show c2 :: cs2 ++ ([] : List Char) = c2 :: cs2 from by simp] at h2
      rw [h2]
      rfl
  have hparse : pyIntParse (String.mk nd) = some (digitsToNat nd) := by
    simp only [pyIntParse]
    rw [if_pos]
    constructor
    · exact hne
    · exact List.all_eq_true.mpr (fun c hc => hd c hc)
  unfold convertValue resolvedUnit
  rw [hdata, htok]
  cases hua : ua with
  | nil =>
    simp only [List.isEmpty_nil, if_true]
    rw [hua] at hmult
    simp only [List.isEmpty_nil, if_true] at hmult
    rw [hmult, hparse]
  | cons c2 cs2 =>
    rw [hua] at hmult
    simp only [List.isEmpty_cons, Bool.false_eq_true, if_false] at hmult
    simp only [List.isEmpty_cons, Bool.false_eq_true, if_false]
    rw [hmult, hparse]

/-- Witness for the amended C6: `"50M"` with the file-size table gives
50 × 1000 = 50000 (here the multiplier is integral, so the result is the
spec's integer). -/
theorem c6_convert_value_witness :
    String.mk (['5', '0'] ++ ['M']) = "50M" ∧
    qmul ((50 : ℕ) : ℚ) 1000 = 50000 ∧
    convertValue "50M" filesizeConversion "" = .ok 50000 ∧
    convertValue (String.mk (['5', '0'] ++ ['M'])) filesizeConversion "" =
      .ok (qmul ((digitsToNat ['5', '0'] : ℕ) : ℚ) 1000) :=
  ⟨by decide, by decide, by decide,
    c6_convert_value ['5', '0'] ['M'] filesizeConversion "" 1000 (by decide)
      (by decide) (by decide) (by decide)⟩

/-- C7 counterexample: `"s"` contains no numeric token, so the claim
demands the parse error; but the code resolves and looks up the unit
before parsing the number, so with the empty default unit (absent from
the table) it fails with the lookup `KeyError` instead of a
`ValueError`. -/
theorem c7_counterexample :
    (("s" : String).data.any Char.isDigit) = false ∧
    convertValue "s" ramptimeConversion "" = .error (.keyError "") :=
  ⟨by decide, by decide⟩

/-- C7 (amended): the converter's failure modes are: an index error
exactly when the string has no tokens at all; a lookup (key) error
exactly when there are tokens and the lower-cased resolved unit (second
token if exactly two tokens, else the default unit) is absent from the
table — this check precedes the numeric parse, so it wins even when no
numeric token exists; a parse (value) error exactly when the resolved
unit is in the table and the first token is not numeric (note the first
token, not the existence of a numeric token anywhere); success exactly
when the resolved unit is in the table and the first token is numeric. -/
theorem c7_error_modes (value : String) (conv : List (String × ℚ))
    (defaultUnit : String) :
    (convertValue value conv defaultUnit = .error .indexError ↔
      tokenize value.data = []) ∧
    ((∃ k, convertValue value conv defaultUnit = .error (.keyError k)) ↔
      (tokenize value.data ≠ [] ∧
        conv.lookup (strToLower (resolvedUnit value defaultUnit)) = none)) ∧
    ((∃ m, convertValue value conv defaultUnit = .error (.valueError m)) ↔
      (conv.lookup (strToLower (resolvedUnit value defaultUnit)) ≠ none ∧
        ∃ t0 rest, tokenize value.data = t0 :: rest ∧ pyIntParse t0 = none)) ∧
    ((∃ q, convertValue value conv defaultUnit = .ok q) ↔
      (conv.lookup (strToLower (resolvedUnit value defaultUnit)) ≠ none ∧
        ∃ t0 rest, tokenize value.data = t0 :: rest ∧ pyIntParse t0 ≠ none)) := by
  cases htok : tokenize value.data with
  | nil =>
    have hcv : convertValue value conv defaultUnit = .error .indexError := by
      simp only [convertValue, htok]
    refine ⟨?_, ?_, ?_, ?_⟩ <;> simp [hcv, htok]
  | cons t0 rest =>
    cases hlk : conv.lookup (strToLower (resolvedUnit value defaultUnit)) with
    | none =>
      have hcv : convertValue value conv defaultUnit =
          .error (.keyError (strToLower (resolvedUnit value defaultUnit))) := by
        simp only [convertValue, htok, hlk]
      refine ⟨?_, ?_, ?_, ?_⟩ <;> simp [hcv, htok, hlk]
    | some mult =>
      cases hp : pyIntParse t0 with
      | none =>
        have hcv : convertValue value conv defaultUnit = .error (.valueError t0) := by
          simp only [convertValue, htok, hlk, hp]
        refine ⟨?_, ?_, ?_, ?_⟩ <;> simp [hcv, htok, hlk, hp]
      | some n =>
        have hcv : convertValue value conv defaultUnit = .ok (qmul (n : ℚ) mult) := by
          simp only [convertValue, htok, hlk, hp]
        refine ⟨?_, ?_, ?_, ?_⟩ <;> simp [hcv, htok, hlk, hp]

theorem mapE_cons_ok {f : α → Except PyErr β} {a : α} {l : List α} {r : List β}
    (h : mapE f (a :: l) = .ok r) :
    ∃ b rs, f a = .ok b ∧ mapE f l = .ok rs ∧ r = b :: rs := by
  simp only [mapE] at h
  cases hfa : f a with
  | error e => rw [hfa] at h; cases h
  | ok b =>
    rw [hfa] at h
    cases hml : mapE f l with
    | error e => rw [hml] at h; cases h
    | ok bs =>
      rw [hml] at h
      cases h
      exact ⟨b, bs, rfl, rfl, rfl⟩

/-- The document refuting C2's global-absent fallback: no global-options
block, one job whose (present, but empty) job-options block is missing
every tracked key. -/
def c2cDoc : FioDoc :=
  { globalOpts := none
    timestampMs := 0
    jobs := [{ jobOpts := some [], blocks := [] }] }

/-- C2 counterexample: by the claim, with no global-options block at all
the spec defaults would be this job's parameter values; the code leaves
the global mapping empty when the block is absent, so the lookup of the
first spec's name raises `KeyError('rw')` and no mapping is produced at
all. -/
theorem c2_counterexample :
    getJobParams c2cDoc = .error (.keyError "rw") := by decide

/-- C2 (amended): for a job with a per-job options block, each spec's
effective value is the formatted per-job value when the source key is in
the job's options, else the formatted global value when the source key is
in the document's global-options block, else the spec's default — all of
this provided the document HAS a global-options block.  When the document
has no global-options block, the global mapping is empty and a job whose
options block lacks any tracked source key makes the whole extraction
fail with a lookup error (no default is applied). -/
theorem c2_param_resolution (doc : FioDoc) :
    (∀ gopts jps, doc.globalOpts = some gopts → getJobParams doc = .ok jps →
      ∀ i job jobsRest, doc.jobs.drop i = job :: jobsRest →
      ∀ opts, job.jobOpts = some opts →
      ∃ jp jpsRest, jps.drop i = jp :: jpsRest ∧
        ∀ p ∈ REQ_JOB_PARAMS,
          (∀ v, opts.lookup p.json_name = some v →
            ∃ fv, p.format v = .ok fv ∧ jp.lookup p.name = some fv) ∧
          (opts.lookup p.json_name = none →
            (∀ gv, gopts.lookup p.json_name = some gv →
              ∃ fgv, p.format gv = .ok fgv ∧ jp.lookup p.name = some fgv) ∧
            (gopts.lookup p.json_name = none → jp.lookup p.name = some p.default))) ∧
    (doc.globalOpts = none →
      ∀ job ∈ doc.jobs, ∀ opts, job.jobOpts = some opts →
      (∃ p ∈ REQ_JOB_PARAMS, opts.lookup p.json_name = none) →
      ∃ e, getJobParams doc = .error e) := by
  constructor
  · intro gopts jps hg h i job jobsRest hdrop opts hopts
    unfold getJobParams at h
    split at h
    · cases h
    · rename_i g hgE
      have hjobs := mapE_drop i h
      rw [hdrop] at hjobs
      obtain ⟨jp, jpsRest, hjp, hrest, hcons⟩ := mapE_cons_ok hjobs
      refine ⟨jp, jpsRest, hcons, ?_⟩
      unfold jobParamsOf at hjp
      rw [hopts] at hjp
      unfold globalParamsE at hgE
      rw [hg] at hgE
      have hfstJob : ∀ (p : JobParam) (b : String × PValue),
          (match opts.lookup p.json_name with
            | some v =>
              match p.format v with
              | .error e => Except.error e
              | .ok fv => Except.ok (p.name, fv)
            | none =>
              match g.lookup p.name with
              | some gv => Except.ok (p.name, gv)
              | none => Except.error (PyErr.keyError p.name)) = .ok b →
          b.1 = p.name := by
        intro p b hb
        split at hb
        · split at hb
          · cases hb
          · cases hb
            rfl
        · split at hb
          · cases hb
            rfl
          · cases hb
      have hfstGlob : ∀ (p : JobParam) (b : String × PValue),
          (match gopts.lookup p.json_name with
            | some v =>
              match p.format v with
              | .error e => Except.error e
              | .ok fv => Except.ok (p.name, fv)
            | none => Except.ok (p.name, p.default)) = .ok b →
          b.1 = p.name := by
        intro p b hb
        split at hb
        · split at hb
          · cases hb
          · cases hb
            rfl
        · cases hb
          rfl
      have hnd : (REQ_JOB_PARAMS.map JobParam.name).Nodup := by decide
      intro p hp
      obtain ⟨c, hc1, hc2⟩ := mapE_assoc_lookup hfstJob hjp hnd p hp
      constructor
      · intro v hv
        cases hfmt : p.format v with
        | error e =>
          simp [hv, hfmt] at hc1
        | ok fv =>
          simp [hv, hfmt] at hc1
          cases hc1
          exact ⟨_, rfl, hc2⟩
      · intro hvnone
        cases hgl : g.lookup p.name with
        | none => simp [hvnone, hgl] at hc1
        | some gv =>
          simp [hvnone, hgl] at hc1
          cases hc1
          obtain ⟨gc, hgc1, hgc2⟩ := mapE_assoc_lookup hfstGlob hgE hnd p hp
          rw [hgl] at hgc2
          cases hgc2
          constructor
          · intro gv2 hgv2
            cases hfmt : p.format gv2 with
            | error e =>
              simp [hgv2, hfmt] at hgc1
            | ok fgv =>
              simp [hgv2, hfmt] at hgc1
              cases hgc1
              exact ⟨_, rfl, hc2⟩
          · intro hgnone
            simp [hgnone] at hgc1
            cases hgc1
            exact hc2
  · intro hg job hjob opts hopts hmiss
    obtain ⟨p, hp, hpnone⟩ := hmiss
    unfold getJobParams globalParamsE
    rw [hg]
    have hfail : jobParamsOf [] job = .error (.keyError p.name) ∨
        ∃ e, jobParamsOf [] job = .error e := by
      right
      unfold jobParamsOf
      rw [hopts]
      have : (match opts.lookup p.json_name with
          | some v =>
            match p.format v with
            | .error e => Except.error e
            | .ok fv => Except.ok (p.name, fv)
          | none =>
            match List.lookup p.name ([] : List (String × PValue)) with
            | some gv => Except.ok (p.name, gv)
            | none => Except.error (PyErr.keyError p.name)) =
          Except.error (PyErr.keyError p.name) := by
        rw [hpnone]
        rfl
      exact mapE_error_of_mem hp this
    rcases hfail with hf | ⟨e, hf⟩
    · exact mapE_error_of_mem hjob hf
    · exact mapE_error_of_mem hjob hf

/-- The global-options block of the spec's parameter-override example. -/
def c2wGopts : List (String × String) := [("filesize", "50M"), ("numjobs", "40")]

/-- The per-job options block of the spec's parameter-override example. -/
def c2wOpts : List (String × String) := [("numjobs", "10")]

/-- The job of the spec's parameter-override example. -/
def c2wJob : FioJob := { jobOpts := some c2wOpts, blocks := [] }

/-- The document of the spec's parameter-override example. -/
def c2wDoc : FioDoc :=
  { globalOpts := some c2wGopts, timestampMs := 0, jobs := [c2wJob] }

/-- The resulting parameter mapping: `filesize_kb` 50000 from the global
block, `num_threads` 10 from the job override, `rw` from the default. -/
def c2wJp : List (String × PValue) :=
  [("rw", PValue.str "read"), ("filesize_kb", PValue.num 50000),
   ("num_threads", PValue.num 10)]

/-- Witness for the amended C2 at the spec's override example. -/
theorem c2_param_resolution_witness :
    getJobParams c2wDoc = .ok [c2wJp] ∧
    (∃ jp jpsRest, ([c2wJp] : List (List (String × PValue))).drop 0 = jp :: jpsRest ∧
      ∀ p ∈ REQ_JOB_PARAMS,
        (∀ v, c2wOpts.lookup p.json_name = some v →
          ∃ fv, p.format v = .ok fv ∧ jp.lookup p.name = some fv) ∧
        (c2wOpts.lookup p.json_name = none →
          (∀ gv, c2wGopts.lookup p.json_name = some gv →
            ∃ fgv, p.format gv = .ok fgv ∧ jp.lookup p.name = some fgv) ∧
          (c2wGopts.lookup p.json_name = none → jp.lookup p.name = some p.default))) :=
  ⟨by decide,
    (c2_param_resolution c2wDoc).1 c2wGopts [c2wJp] rfl (by decide) 0 c2wJob []
      rfl c2wOpts rfl⟩

/-- C8: a job entry with no per-job options block at all yields an empty
configuration mapping — the code does not fall back to the global values
or the spec defaults for such a job. -/
theorem c8_no_job_opts_empty_params (doc : FioDoc)
    (jps : List (List (String × PValue)))
    (h : getJobParams doc = .ok jps)
    (i : ℕ) (job : FioJob) (jobsRest : List FioJob)
    (hdrop : doc.jobs.drop i = job :: jobsRest)
    (hopts : job.jobOpts = none) :
    ∃ jpsRest, jps.drop i = [] :: jpsRest := by
  unfold getJobParams at h
  split at h
  · cases h
  · rename_i g hg
    have hjobs := mapE_drop i h
    rw [hdrop] at hjobs
    obtain ⟨jp, jpsRest, hjp, hrest, hcons⟩ := mapE_cons_ok hjobs
    unfold jobParamsOf at hjp
    rw [hopts] at hjp
    cases hjp
    exact ⟨jpsRest, hcons⟩

/-- Witness document for C8: a global block is present and nonempty, the
single job has no job-options block at all. -/
def c8wDoc : FioDoc :=
  { globalOpts := some [("filesize", "50M")]
    timestampMs := 0
    jobs := [{ jobOpts := none, blocks := [] }] }

/-- Witness for C8: the job's configuration mapping is empty even though
the global block could have supplied `filesize_kb` (and defaults exist). -/
theorem c8_no_job_opts_empty_params_witness :
    getJobParams c8wDoc = .ok [[]] ∧
    (∃ jpsRest, ([[]] : List (List (String × PValue))).drop 0 = [] :: jpsRest) :=
  ⟨by decide,
    c8_no_job_opts_empty_params c8wDoc [[]] (by decide) 0
      { jobOpts := none, blocks := [] } [] rfl rfl⟩

/-- C10: a document containing a job entry without a per-job options
block can never yield a record list: that job's parameter mapping is
empty, so the `rw` lookup performed by the Time-Window Reconstructor
fails with a `KeyError` before any record is produced (when parameter
extraction itself has not already failed). -/
theorem c10_missing_job_opts_aborts (doc : FioDoc)
    (hexists : ∃ job ∈ doc.jobs, job.jobOpts = none) :
    ∃ e, extractMetrics doc = .error e := by
  obtain ⟨job, hjob, hopts⟩ := hexists
  cases hjp : getJobParams doc with
  | error e => exact ⟨e, by simp only [extractMetrics, hjp]⟩
  | ok jps =>
    cases hst : getStartEndTimes doc jps with
    | error e => exact ⟨e, by simp only [extractMetrics, hjp, hst]⟩
    | ok ts =>
      exfalso
      unfold getJobParams at hjp
      split at hjp
      · cases hjp
      · rename_i g hg
        obtain ⟨jp, hjpmem, hjpeq⟩ := mapE_ok_forall hjp job hjob
        unfold jobParamsOf at hjpeq
        rw [hopts] at hjpeq
        cases hjpeq
        unfold getStartEndTimes at hst
        split at hst
        · cases hst
        · rename_i rwRev hrw
          obtain ⟨v, hvmem, hveq⟩ :=
            mapE_ok_forall hrw [] (List.mem_reverse.mpr hjpmem)
          simp [lookupRw, List.lookup] at hveq

/-- The optionless job of the C10 witness document. -/
def c10wJob : FioJob :=
  { jobOpts := none, blocks := [("read", RVal.obj [("runtime", RVal.num 5)])] }

/-- Witness document for C10: one job, no job-options block. -/
def c10wDoc : FioDoc :=
  { globalOpts := none, timestampMs := 1000, jobs := [c10wJob] }

/-- Witness for C10: the whole extraction aborts (with the `rw`
`KeyError`), producing no record list. -/
theorem c10_missing_job_opts_aborts_witness :
    extractMetrics c10wDoc = .error (.keyError "rw") ∧
    (∃ e, extractMetrics c10wDoc = .error e) :=
  ⟨by decide,
    c10_missing_job_opts_aborts c10wDoc ⟨c10wJob, List.mem_cons_self _ _, rfl⟩⟩

/-- The per-job outcomes of `_extract_metrics`, one `Option JobRecord`
per job (before the skip filter flattens them). -/
def outcomesE : List FioJob → List (List (String × PValue)) → List (ℤ × ℤ) →
    Except PyErr (List (Option JobRecord))
  | [], _, _ => .ok []
  | _ :: _, [], _ => .error .indexError
  | _ :: _, _ :: _, [] => .error .indexError
  | job :: jobs, jp :: jps, t :: times =>
    match jobOutcome job jp t with
    | .error e => .error e
    | .ok o =>
      match outcomesE jobs jps times with
      | .error e => .error e
      | .ok rest => .ok (o :: rest)

theorem extractJobs_eq_outcomes :
    ∀ (jobs : List FioJob) (jps : List (List (String × PValue)))
      (times : List (ℤ × ℤ)),
      extractJobs jobs jps times =
        match outcomesE jobs jps times with
        | .error e => .error e
        | .ok outs => .ok (outs.filterMap id) := by
  intro jobs
  induction jobs with
  | nil => intro jps times; rfl
  | cons job jobs ih =>
    intro jps times
    cases jps with
    | nil => rfl
    | cons jp jps2 =>
      cases times with
      | nil => rfl
      | cons t times2 =>
        cases ho : jobOutcome job jp t with
        | error e => simp [extractJobs, outcomesE, ho]
        | ok o =>
          have hih := ih jps2 times2
          cases hrec : outcomesE jobs jps2 times2 with
          | error e =>
            rw [hrec] at hih
            simp [extractJobs, outcomesE, ho, hrec, hih]
          | ok outs =>
            rw [hrec] at hih
            simp only [extractJobs, outcomesE, ho, hrec, hih]
            cases o <;> simp [List.filterMap_cons]

theorem outcomesE_length :
    ∀ {jobs : List FioJob} {jps : List (List (String × PValue))}
      {times : List (ℤ × ℤ)} {outs : List (Option JobRecord)},
      outcomesE jobs jps times = .ok outs → outs.length = jobs.length := by
  intro jobs
  induction jobs with
  | nil =>
    intro jps times outs h
    cases jps <;> cases times <;> (simp only [outcomesE] at h; cases h; rfl)
  | cons job jobs ih =>
    intro jps times outs h
    cases jps with
    | nil => simp only [outcomesE] at h; cases h
    | cons jp jps2 =>
      cases times with
      | nil => simp only [outcomesE] at h; cases h
      | cons t times2 =>
        simp only [outcomesE] at h
        cases ho : jobOutcome job jp t with
        | error e => rw [ho] at h; cases h
        | ok o =>
          rw [ho] at h
          cases hrec : outcomesE jobs jps2 times2 with
          | error e => rw [hrec] at h; cases h
          | ok rest =>
            rw [hrec] at h
            cases h
            simp [ih hrec]

theorem outcomesE_forall_jobs :
    ∀ {jobs : List FioJob} {jps : List (List (String × PValue))}
      {times : List (ℤ × ℤ)} {outs : List (Option JobRecord)},
      outcomesE jobs jps times = .ok outs →
      ∀ job ∈ jobs, ∃ jp t o, jobOutcome job jp t = .ok o := by
  intro jobs
  induction jobs with
  | nil => intro jps times outs _ job hjob; cases hjob
  | cons job0 jobs ih =>
    intro jps times outs h job hjob
    cases jps with
    | nil => simp only [outcomesE] at h; cases h
    | cons jp jps2 =>
      cases times with
      | nil => simp only [outcomesE] at h; cases h
      | cons t times2 =>
        simp only [outcomesE] at h
        cases ho : jobOutcome job0 jp t with
        | error e => rw [ho] at h; cases h
        | ok o =>
          rw [ho] at h
          cases hrec : outcomesE jobs jps2 times2 with
          | error e => rw [hrec] at h; cases h
          | ok rest =>
            rcases List.mem_cons.mp hjob with rfl | hjob2
            · exact ⟨jp, t, o, ho⟩
            · exact ih hrec job hjob2

theorem outcomesE_mem :
    ∀ {jobs : List FioJob} {jps : List (List (String × PValue))}
      {times : List (ℤ × ℤ)} {outs : List (Option JobRecord)},
      outcomesE jobs jps times = .ok outs →
      ∀ o ∈ outs, ∃ job ∈ jobs, ∃ jp ∈ jps, ∃ t,
        jobOutcome job jp t = .ok o := by
  intro jobs
  induction jobs with
  | nil =>
    intro jps times outs h o ho
    cases jps <;> cases times <;>
      (simp only [outcomesE] at h; cases h; cases ho)
  | cons job0 jobs ih =>
    intro jps times outs h o hom
    cases jps with
    | nil => simp only [outcomesE] at h; cases h
    | cons jp jps2 =>
      cases times with
      | nil => simp only [outcomesE] at h; cases h
      | cons t times2 =>
        simp only [outcomesE] at h
        cases ho : jobOutcome job0 jp t with
        | error e => rw [ho] at h; cases h
        | ok o1 =>
          rw [ho] at h
          cases hrec : outcomesE jobs jps2 times2 with
          | error e => rw [hrec] at h; cases h
          | ok rest =>
            rw [hrec] at h
            cases h
            rcases List.mem_cons.mp hom with rfl | hom2
            · exact ⟨job0, List.mem_cons_self _ _, jp, List.mem_cons_self _ _, t, ho⟩
            · obtain ⟨job2, hj2, jp2, hjp2, t2, h2⟩ := ih hrec o hom2
              exact ⟨job2, List.mem_cons_of_mem _ hj2, jp2,
                List.mem_cons_of_mem _ hjp2, t2, h2⟩

theorem extractMetrics_ok {doc : FioDoc} {recs : List JobRecord}
    (h : extractMetrics doc = .ok recs) :
    ∃ jps times outs,
      getJobParams doc = .ok jps ∧
      getStartEndTimes doc jps = .ok times ∧
      outcomesE doc.jobs jps times = .ok outs ∧
      recs = outs.filterMap id ∧ recs ≠ [] := by
  unfold extractMetrics at h
  split at h
  · cases h
  · rename_i jps hjps
    split at h
    · cases h
    · rename_i times htimes
      split at h
      · cases h
      · rename_i allJobs hext
        rw [extractJobs_eq_outcomes] at hext
        cases hout : outcomesE doc.jobs jps times with
        | error e => rw [hout] at hext; cases hext
        | ok outs =>
          rw [hout] at hext
          cases hext
          by_cases hnil : outs.filterMap id = []
          · rw [if_pos hnil] at h
            cases h
          · rw [if_neg hnil] at h
            cases h
            exact ⟨jps, times, outs, hjps, htimes, hout, rfl, hnil⟩

theorem jobOutcome_ok {job : FioJob} {jp : List (String × PValue)} {t : ℤ × ℤ}
    {o : Option JobRecord} (h : jobOutcome job jp t = .ok o) :
    ∃ ms, jobMetricsOf job jp = .ok ms ∧
      ((t.1 ≥ t.2 ∨ ∀ p ∈ ms, p.2 = 0) → o = none) ∧
      (¬(t.1 ≥ t.2 ∨ ∀ p ∈ ms, p.2 = 0) → o = some ⟨jp, t.1, t.2, ms⟩) := by
  unfold jobOutcome at h
  split at h
  · cases h
  · rename_i ms hms
    split at h
    · rename_i hcond
      cases h
      exact ⟨ms, hms, fun _ => rfl, fun hn => absurd hcond hn⟩
    · rename_i hcond
      cases h
      exact ⟨ms, hms, fun hc => absurd hc hcond, fun _ => rfl⟩

theorem extractOne_ok {jobRw : RVal} {m : JobMetric} {q : ℚ}
    (h : extractOne jobRw m = .ok q) :
    ∃ leaf, metricWalk jobRw m.levels = .ok (.num leaf) ∧
      q = qmul leaf m.conversion := by
  unfold extractOne at h
  split at h
  · cases h
  · rename_i leaf hw
    cases h
    exact ⟨leaf, hw, rfl⟩
  · cases h

theorem jobMetricsOf_ok {job : FioJob} {jp : List (String × PValue)}
    {ms : List (String × ℚ)} (h : jobMetricsOf job jp = .ok ms) :
    ∃ rwv jobRw, jp.lookup "rw" = some rwv ∧ jobRwBlock job rwv = .ok jobRw ∧
      ms.map Prod.fst = REQ_JOB_METRICS.map JobMetric.name ∧
      ∀ m ∈ REQ_JOB_METRICS, ∃ q, extractOne jobRw m = .ok q ∧
        ms.lookup m.name = some q := by
  unfold jobMetricsOf at h
  split at h
  · cases h
  · rename_i rwv hrwv
    split at h
    · cases h
    · rename_i jobRw hjb
      have hf : ∀ (m : JobMetric) (b : String × ℚ),
          (match extractOne jobRw m with
            | .error e => Except.error e
            | .ok q => Except.ok (m.name, q)) = .ok b → b.1 = m.name := by
        intro m b hb
        split at hb
        · cases hb
        · cases hb
          rfl
      have hnd : (REQ_JOB_METRICS.map JobMetric.name).Nodup := by decide
      have hlk : jp.lookup "rw" = some rwv := by
        unfold lookupRw at hrwv
        split at hrwv
        · cases hrwv
        · rename_i v hv
          cases hrwv
          exact hv
      refine ⟨rwv, jobRw, hlk, hjb, mapE_fst hf h, ?_⟩
      intro m hm
      obtain ⟨c, hc1, hc2⟩ := mapE_assoc_lookup hf h hnd m hm
      cases hx : extractOne jobRw m with
      | error e => rw [hx] at hc1; cases hc1
      | ok q =>
        rw [hx] at hc1
        cases hc1
        exact ⟨_, rfl, hc2⟩

/-- C4: for every job and every metric spec, if any key along the spec's
nested key path is absent from the job's mode-specific result block, the
walk raises the missing-metric `NoValuesError` and the whole run aborts:
whenever `extractMetrics` returns a record list, every job's every metric
walk resolved to a numeric leaf (first conjunct, the contrapositive of
the abort); the stored value of each metric of each emitted record is
that leaf times the spec's conversion factor (second conjunct); and a key
absent at any step of the walk produces exactly the missing-metric error
(third conjunct). -/
theorem c4_missing_metric_abort (doc : FioDoc) :
    (∀ recs, extractMetrics doc = .ok recs →
      ∀ job ∈ doc.jobs, ∃ (jp : List (String × PValue)) (rwv : PValue) (jobRw : RVal),
        jp.lookup "rw" = some rwv ∧
        jobRwBlock job rwv = .ok jobRw ∧
        ∀ m ∈ REQ_JOB_METRICS, ∃ leaf,
          metricWalk jobRw m.levels = .ok (.num leaf)) ∧
    (∀ recs, extractMetrics doc = .ok recs →
      ∀ rec ∈ recs, ∃ rwv jobRw,
        rec.params.lookup "rw" = some rwv ∧
        (∃ job ∈ doc.jobs, jobRwBlock job rwv = .ok jobRw) ∧
        ∀ m ∈ REQ_JOB_METRICS, ∃ leaf,
          metricWalk jobRw m.levels = .ok (.num leaf) ∧
          rec.metrics.lookup m.name = some (qmul leaf m.conversion)) ∧
    (∀ (fields : List (String × RVal)) (sub : String) (rest : List String),
      fields.lookup sub = none →
      metricWalk (.obj fields) (sub :: rest) = .error (.noValuesError sub)) := by
  refine ⟨?_, ?_, ?_⟩
  · intro recs h job hjob
    obtain ⟨jps, times, outs, hjps, htimes, hout, hrecs, hne⟩ := extractMetrics_ok h
    obtain ⟨jp, t, o, ho⟩ := outcomesE_forall_jobs hout job hjob
    obtain ⟨ms, hms, _, _⟩ := jobOutcome_ok ho
    obtain ⟨rwv, jobRw, hlk, hjb, _, hall⟩ := jobMetricsOf_ok hms
    refine ⟨jp, rwv, jobRw, hlk, hjb, ?_⟩
    intro m hm
    obtain ⟨q, hq, _⟩ := hall m hm
    obtain ⟨leaf, hleaf, _⟩ := extractOne_ok hq
    exact ⟨leaf, hleaf⟩
  · intro recs h rec hrec
    obtain ⟨jps, times, outs, hjps, htimes, hout, hrecs, hne⟩ := extractMetrics_ok h
    rw [hrecs] at hrec
    rw [List.mem_filterMap] at hrec
    obtain ⟨o, homem, hoeq⟩ := hrec
    have hosome : o = some rec := hoeq
    subst hosome
    obtain ⟨job, hjobm, jp, hjpm, t, ho⟩ := outcomesE_mem hout (some rec) homem
    obtain ⟨ms, hms, hnone, hsome⟩ := jobOutcome_ok ho
    by_cases hcond : (t.1 ≥ t.2 ∨ ∀ p ∈ ms, p.2 = 0)
    · cases hnone hcond
    · have hrec2 := hsome hcond
      cases hrec2
      obtain ⟨rwv, jobRw, hlk, hjb, _, hall⟩ := jobMetricsOf_ok hms
      refine ⟨rwv, jobRw, hlk, ⟨job, hjobm, hjb⟩, ?_⟩
      intro m hm
      obtain ⟨q, hq, hql⟩ := hall m hm
      obtain ⟨leaf, hleaf, hqe⟩ := extractOne_ok hq
      subst hqe
      exact ⟨leaf, hleaf, hql⟩
  · intro fields sub rest hnone
    simp [metricWalk, hnone]

/-- A fully populated latency block. -/
def c4wLat : RVal :=
  .obj [("min", .num 250), ("max", .num 500), ("mean", .num 375),
        ("percentile", .obj [("20.000000", .num 260), ("50.000000", .num 370),
                             ("90.000000", .num 480), ("95.000000", .num 490)])]

/-- A read result block containing every required metric key. -/
def c4wRead : RVal :=
  .obj [("iops", .num 95), ("bw_bytes", .num 99888324),
        ("io_bytes", .num 6040846336), ("runtime", .num 71000),
        ("lat_ns", c4wLat)]

/-- The job of the full witness document. -/
def c4wJob : FioJob :=
  { jobOpts := some [("numjobs", "10"), ("rw", "read")]
    blocks := [("read", c4wRead)] }

/-- A complete document: global options, timestamp, one healthy job. -/
def c4wDoc : FioDoc :=
  { globalOpts := some [("filesize", "50M"), ("numjobs", "40")]
    timestampMs := 1653027155000
    jobs := [c4wJob] }

/-- The single record `extractMetrics` produces for `c4wDoc`. -/
def c4wRec : JobRecord :=
  { params := [("rw", PValue.str "read"), ("filesize_kb", PValue.num 50000),
               ("num_threads", PValue.num 10)]
    startTime := 1653027084
    endTime := 1653027155
    metrics := [("iops", qmul 95 1), ("bw_bytes", qmul 99888324 1),
                ("io_bytes", qmul 6040846336 1), ("lat_s_min", qmul 250 nsToS),
                ("lat_s_max", qmul 500 nsToS), ("lat_s_mean", qmul 375 nsToS),
                ("lat_s_perc_20", qmul 260 nsToS), ("lat_s_perc_50", qmul 370 nsToS),
                ("lat_s_perc_90", qmul 480 nsToS), ("lat_s_perc_95", qmul 490 nsToS)] }

/-- Witness for C4: on the complete document every walk succeeds and the
record's metric values are leaf × conversion; a document with an empty
result block walks into the missing-metric error. -/
theorem c4_missing_metric_abort_witness :
    extractMetrics c4wDoc = .ok [c4wRec] ∧
    (∃ (jp : List (String × PValue)) (rwv : PValue) (jobRw : RVal),
      jp.lookup "rw" = some rwv ∧
      jobRwBlock c4wJob rwv = .ok jobRw ∧
      ∀ m ∈ REQ_JOB_METRICS, ∃ leaf,
        metricWalk jobRw m.levels = .ok (.num leaf)) ∧
    (∃ rwv jobRw,
      c4wRec.params.lookup "rw" = some rwv ∧
      (∃ job ∈ c4wDoc.jobs, jobRwBlock job rwv = .ok jobRw) ∧
      ∀ m ∈ REQ_JOB_METRICS, ∃ leaf,
        metricWalk jobRw m.levels = .ok (.num leaf) ∧
        c4wRec.metrics.lookup m.name = some (qmul leaf m.conversion)) ∧
    metricWalk (.obj []) ["iops"] = .error (.noValuesError "iops") :=
  ⟨by decide,
    (c4_missing_metric_abort c4wDoc).1 [c4wRec] (by decide) c4wJob
      (List.mem_cons_self _ _),
    (c4_missing_metric_abort c4wDoc).2.1 [c4wRec] (by decide) c4wRec
      (List.mem_cons_self _ _),
    (c4_missing_metric_abort c4wDoc).2.2 [] "iops" [] rfl⟩

/-- C5: a job whose start_seconds ≥ end_seconds, or whose metric values
are all zero, is excluded without aborting: on success the record list is
the per-job outcome list flattened by dropping the `none` (skipped)
entries — one outcome per job, so every non-skipped job yields exactly
one record (first conjunct), with every emitted record having
start < end and a nonzero metric; an outcome is `none` exactly when the
skip condition holds (second conjunct); and if no job survives the
filter, extraction fails with the distinct no-usable-data error (third
conjunct). -/
theorem c5_skip_filter (doc : FioDoc) :
    (∀ recs, extractMetrics doc = .ok recs →
      recs ≠ [] ∧
      (∀ rec ∈ recs, rec.startTime < rec.endTime ∧ ∃ p ∈ rec.metrics, p.2 ≠ 0) ∧
      ∃ jps times outs,
        getJobParams doc = .ok jps ∧
        getStartEndTimes doc jps = .ok times ∧
        outcomesE doc.jobs jps times = .ok outs ∧
        outs.length = doc.jobs.length ∧
        recs = outs.filterMap id) ∧
    (∀ job jp t ms, jobMetricsOf job jp = .ok ms →
      (jobOutcome job jp t = .ok none ↔ (t.1 ≥ t.2 ∨ ∀ p ∈ ms, p.2 = 0)) ∧
      (jobOutcome job jp t = .ok (some ⟨jp, t.1, t.2, ms⟩) ↔
        ¬(t.1 ≥ t.2 ∨ ∀ p ∈ ms, p.2 = 0))) ∧
    (∀ jps times outs, getJobParams doc = .ok jps →
      getStartEndTimes doc jps = .ok times →
      outcomesE doc.jobs jps times = .ok outs →
      outs.filterMap id = [] →
      extractMetrics doc =
        .error (.noValuesError "No data could be extracted from file")) := by
  refine ⟨?_, ?_, ?_⟩
  · intro recs h
    obtain ⟨jps, times, outs, hjps, htimes, hout, hrecs, hne⟩ := extractMetrics_ok h
    refine ⟨hne, ?_, jps, times, outs, hjps, htimes, hout, outcomesE_length hout, hrecs⟩
    intro rec hrec
    rw [hrecs, List.mem_filterMap] at hrec
    obtain ⟨o, homem, hoeq⟩ := hrec
    have hosome : o = some rec := hoeq
    subst hosome
    obtain ⟨job, hjobm, jp, hjpm, t, ho⟩ := outcomesE_mem hout (some rec) homem
    obtain ⟨ms, hms, hnone, hsome⟩ := jobOutcome_ok ho
    by_cases hcond : (t.1 ≥ t.2 ∨ ∀ p ∈ ms, p.2 = 0)
    · cases hnone hcond
    · have hrec2 := hsome hcond
      cases hrec2
      push_neg at hcond
      exact ⟨hcond.1, hcond.2⟩
  · intro job jp t ms hms
    unfold jobOutcome
    simp only [hms]
    by_cases hcond : (t.1 ≥ t.2 ∨ ∀ p ∈ ms, p.2 = 0)
    · rw [if_pos hcond]
      constructor
      · exact ⟨fun _ => hcond, fun _ => rfl⟩
      · constructor
        · intro hc
          cases hc
        · intro hn
          exact absurd hcond hn
    · rw [if_neg hcond]
      constructor
      · constructor
        · intro hc
          cases hc
        · intro hc
          exact absurd hc hcond
      · exact ⟨fun _ => hcond, fun _ => rfl⟩
  · intro jps times outs hjps htimes hout hfm
    have hext : extractJobs doc.jobs jps times = .ok ([] : List JobRecord) := by
      simp only [extractJobs_eq_outcomes, hout, hfm]
    simp [extractMetrics, hjps, htimes, hext]

/-- A read block whose every metric value is zero. -/
def c5zRead : RVal :=
  .obj [("iops", .num 0), ("bw_bytes", .num 0), ("io_bytes", .num 0),
        ("runtime", .num 5),
        ("lat_ns", .obj [("min", .num 0), ("max", .num 0), ("mean", .num 0),
          ("percentile", .obj [("20.000000", .num 0), ("50.000000", .num 0),
                               ("90.000000", .num 0), ("95.000000", .num 0)])])]

/-- The all-zero job. -/
def c5zJob : FioJob :=
  { jobOpts := some [("rw", "read")], blocks := [("read", c5zRead)] }

/-- A document whose only job has all-zero metrics: it is skipped, no job
survives, and extraction fails with the no-usable-data error. -/
def c5zDoc : FioDoc :=
  { globalOpts := some [], timestampMs := 1000000, jobs := [c5zJob] }

/-- The parameter mapping of `c5zJob` (defaults from the empty global
block, `rw` from the job options). -/
def c5zJp : List (String × PValue) :=
  [("rw", PValue.str "read"), ("filesize_kb", PValue.num 0),
   ("num_threads", PValue.num 1)]

/-- Time pair of the full witness document's job. -/
def c5wT : ℤ × ℤ := (1653027084, 1653027155)

/-- Witness for C5: the healthy document's record survives with
start < end and nonzero metrics; the skip condition is characterized on
that record's data; and the all-zero document loses its only job to the
filter and fails with the no-usable-data error. -/
theorem c5_skip_filter_witness :
    extractMetrics c4wDoc = .ok [c4wRec] ∧
    (([c4wRec] : List JobRecord) ≠ [] ∧
      (∀ rec ∈ [c4wRec], rec.startTime < rec.endTime ∧ ∃ p ∈ rec.metrics, p.2 ≠ 0) ∧
      ∃ jps times outs,
        getJobParams c4wDoc = .ok jps ∧
        getStartEndTimes c4wDoc jps = .ok times ∧
        outcomesE c4wDoc.jobs jps times = .ok outs ∧
        outs.length = c4wDoc.jobs.length ∧
        ([c4wRec] : List JobRecord) = outs.filterMap id) ∧
    ((jobOutcome c4wJob c4wRec.params c5wT = .ok none ↔
        (c5wT.1 ≥ c5wT.2 ∨ ∀ p ∈ c4wRec.metrics, p.2 = 0)) ∧
      (jobOutcome c4wJob c4wRec.params c5wT =
          .ok (some ⟨c4wRec.params, c5wT.1, c5wT.2, c4wRec.metrics⟩) ↔
        ¬(c5wT.1 ≥ c5wT.2 ∨ ∀ p ∈ c4wRec.metrics, p.2 = 0))) ∧
    outcomesE c5zDoc.jobs [c5zJp] [(999, 1000)] = .ok [none] ∧
    extractMetrics c5zDoc =
      .error (.noValuesError "No data could be extracted from file") :=
  ⟨by decide,
    (c5_skip_filter c4wDoc).1 [c4wRec] (by decide),
    (c5_skip_filter c4wDoc).2.1 c4wJob c4wRec.params c5wT c4wRec.metrics (by decide),
    by decide,
    (c5_skip_filter c5zDoc).2.2 [c5zJp] [(999, 1000)] [none] (by decide) (by decide)
      (by decide) (by decide)⟩

theorem paramEntry_fst {opts : List (String × String)} {g : List (String × PValue)}
    (p : JobParam) (b : String × PValue)
    (hb : (match opts.lookup p.json_name with
           | some v =>
             match p.format v with
             | .error e => Except.error e
             | .ok fv => Except.ok (p.name, fv)
           | none =>
             match g.lookup p.name with
             | some gv => Except.ok (p.name, gv)
             | none => Except.error (PyErr.keyError p.name)) = .ok b) :
    b.1 = p.name := by
  split at hb
  · split at hb
    · cases hb
    · cases hb
      rfl
  · split at hb
    · cases hb
      rfl
    · cases hb

/-- C9: each flattened row handed to the tabular sink lists, in order,
the record's parameter values in the insertion order of the static
parameter spec list, then start time, then end time, then the metric
values in the insertion order of the static metric spec list: for every
surviving record the parameter names in mapping order are exactly
`REQ_JOB_PARAMS`'s names and the metric names exactly
`REQ_JOB_METRICS`'s, and the row is the concatenation of those values
around the two times. -/
theorem c9_row_order (doc : FioDoc) (recs : List JobRecord)
    (h : extractMetrics doc = .ok recs) :
    addToGsheet recs = recs.map rowOfJob ∧
    ∀ rec ∈ recs,
      rec.params.map Prod.fst = REQ_JOB_PARAMS.map JobParam.name ∧
      rec.metrics.map Prod.fst = REQ_JOB_METRICS.map JobMetric.name ∧
      rowOfJob rec = rec.params.map (fun p => pcell p.2) ++
        [Cell.int rec.startTime, Cell.int rec.endTime] ++
        rec.metrics.map (fun m => Cell.num m.2) := by
  refine ⟨rfl, ?_⟩
  intro rec hrec
  obtain ⟨jps, times, outs, hjps, htimes, hout, hrecs, hne⟩ := extractMetrics_ok h
  rw [hrecs, List.mem_filterMap] at hrec
  obtain ⟨o, homem, hoeq⟩ := hrec
  have hosome : o = some rec := hoeq
  subst hosome
  obtain ⟨job, hjobm, jp, hjpm, t, ho⟩ := outcomesE_mem hout (some rec) homem
  obtain ⟨ms, hms, hnone, hsome⟩ := jobOutcome_ok ho
  by_cases hcond : (t.1 ≥ t.2 ∨ ∀ p ∈ ms, p.2 = 0)
  · cases hnone hcond
  · have hrec2 := hsome hcond
    cases hrec2
    obtain ⟨rwv, jobRw, hlk, hjb, hmsfst, hall⟩ := jobMetricsOf_ok hms
    refine ⟨?_, hmsfst, rfl⟩
    unfold getJobParams at hjps
    split at hjps
    · cases hjps
    · rename_i g hg
      obtain ⟨job2, hjob2m, hjp2⟩ := mapE_ok_mem hjps jp hjpm
      unfold jobParamsOf at hjp2
      cases hopts : job2.jobOpts with
      | none =>
        rw [hopts] at hjp2
        cases hjp2
        simp [List.lookup] at hlk
      | some opts =>
        rw [hopts] at hjp2
        exact mapE_fst (fun p b hb => paramEntry_fst p b hb) hjp2

/-- Witness for C9: the complete document's single record flattens to
exactly (rw, filesize_kb, num_threads, start, end, 10 metrics) in spec
order. -/
theorem c9_row_order_witness :
    extractMetrics c4wDoc = .ok [c4wRec] ∧
    addToGsheet [c4wRec] =
      [[Cell.str "read", Cell.num 50000, Cell.num 10,
        Cell.int 1653027084, Cell.int 1653027155,
        Cell.num (qmul 95 1), Cell.num (qmul 99888324 1),
        Cell.num (qmul 6040846336 1), Cell.num (qmul 250 nsToS),
        Cell.num (qmul 500 nsToS), Cell.num (qmul 375 nsToS),
        Cell.num (qmul 260 nsToS), Cell.num (qmul 370 nsToS),
        Cell.num (qmul 480 nsToS), Cell.num (qmul 490 nsToS)]] ∧
    (addToGsheet [c4wRec] = ([c4wRec] : List JobRecord).map rowOfJob ∧
      ∀ rec ∈ ([c4wRec] : List JobRecord),
        rec.params.map Prod.fst = REQ_JOB_PARAMS.map JobParam.name ∧
        rec.metrics.map Prod.fst = REQ_JOB_METRICS.map JobMetric.name ∧
        rowOfJob rec = rec.params.map (fun p => pcell p.2) ++
          [Cell.int rec.startTime, Cell.int rec.endTime] ++
          rec.metrics.map (fun m => Cell.num m.2)) :=
  ⟨by decide, by decide, c9_row_order c4wDoc [c4wRec] (by decide)⟩
